import Mathlib

/-!
# Verification of `preprocess/get_antenna_flags.py`

A shallow embedding of the statistical core of the antenna-flagging batch job:

* `flagStatus` / `flag` — the per-antenna BAD/GOOD classifier (`flag` in the
  source): dB-deviation of each antenna's averaged spectrum from the median
  spectrum over the bin window `[1066, 3552)`.
* `pairRule` — the polarization-pair downgrade loop at the end of `main`.
* `polyfitSlope` / `detrended` / `outlierIdx` / `dayGroupOutliers` — the
  per-day linear-trend outlier detection (`np.polyfit` / `np.polyval` /
  3-sigma test in `main`), including the `np.polyfit` abort on day-groups
  of fewer than two captures.
* `accumFrom` / `accumSum` / `averagedSpectrum` — the running-sum spectrum
  accumulation (`mean_spec += spec`) with numpy's in-place broadcasting rules,
  and the division by the number of captures.
* `antennaFlagsFile` — the `antenna_flags.txt` emission loop.
* `badCapturePairs` / `badCaptureLines` — the order in which outlier captures
  are appended to `bad_captures.txt` (days via `np.unique`, groups via
  `np.where`).

Floating-point arithmetic is modelled over `ℝ`; `10*np.log10` becomes
`10 * Real.logb 10`.  Statuses keep the source's numeric encoding
(`3` = good, `2` = suspect, `1` = bad) so that the pair rule's `min(s, 2)`
is literally `min s 2` on `ℕ`.
-/

/-- Status code for a good antenna channel (`3` in the source). -/
def GOOD : ℕ := 3

/-- Status code for a suspect antenna channel (`2` in the source). -/
def SUSPECT : ℕ := 2

/-- Status code for a bad antenna channel (`1` in the source). -/
def BAD : ℕ := 1

/-!
## PairRule

Source (`main`):
```
for i in range(0, len(status), 2):
    sx = status[i+0]
    sy = status[i+1]
    if sx != 3 or sy != 3:
        status[i+0] = min([status[i+0], 2])
        status[i+1] = min([status[i+1], 2])
```
The loop touches disjoint index pairs, so the in-place update is the pairwise
map below.  On an odd-length list the final iteration reads `status[i+1]`
past the end and the run aborts (IndexError); that abort is the `none` case.
-/

/-- The polarization-pair downgrade pass.  `none` models the abort on an
odd-length status list (the source's out-of-range read of `status[i+1]`). -/
def pairRule : List ℕ → Option (List ℕ)
  | [] => some []
  | [_] => none
  | sx :: sy :: rest =>
    (pairRule rest).map (fun r =>
      (if sx ≠ 3 ∨ sy ≠ 3 then min sx 2 else sx) ::
      (if sx ≠ 3 ∨ sy ≠ 3 then min sy 2 else sy) :: r)

lemma pairRule_cons_cons (sx sy : ℕ) (rest : List ℕ) :
    pairRule (sx :: sy :: rest) =
      (pairRule rest).map (fun r =>
        (if sx ≠ 3 ∨ sy ≠ 3 then min sx 2 else sx) ::
        (if sx ≠ 3 ∨ sy ≠ 3 then min sy 2 else sy) :: r) := rfl

/-- Entry-wise description of a successful `pairRule` run. -/
lemma pairRule_getD (status r : List ℕ) (h : pairRule status = some r) (k : ℕ)
    (hk : 2 * k + 1 < status.length) :
    r.getD (2 * k) 0 =
      (if status.getD (2 * k) 0 ≠ 3 ∨ status.getD (2 * k + 1) 0 ≠ 3
        then min (status.getD (2 * k) 0) 2 else status.getD (2 * k) 0) ∧
    r.getD (2 * k + 1) 0 =
      (if status.getD (2 * k) 0 ≠ 3 ∨ status.getD (2 * k + 1) 0 ≠ 3
        then min (status.getD (2 * k + 1) 0) 2 else status.getD (2 * k + 1) 0) := by
  induction status using pairRule.induct generalizing r k with
  | case1 =>
      exact absurd hk (by simp)
  | case2 s =>
      rw [show pairRule [s] = none from rfl] at h
      exact Option.noConfusion h
  | case3 sx sy rest ih =>
      rw [pairRule_cons_cons] at h
      rcases hr : pairRule rest with _ | r'
      · rw [hr] at h; simp at h
      · rw [hr] at h
        simp only [Option.map_some'] at h
        obtain rfl : _ = r := Option.some.inj h
        cases k with
        | zero => simp
        | succ k' =>
            have hk' : 2 * k' + 1 < rest.length := by
              simp only [List.length_cons] at hk
              omega
            have := ih r' hr k' hk'
            have e0 : 2 * (k' + 1) = 2 * k' + 1 + 1 := by ring
            have e1 : 2 * (k' + 1) + 1 = 2 * k' + 1 + 1 + 1 := by ring
            simpa [e0, e1] using this

/-- `pairRule` aborts on every odd-length status list. -/
lemma pairRule_odd (status : List ℕ) (h : status.length % 2 = 1) :
    pairRule status = none := by
  induction status using pairRule.induct with
  | case1 => simp at h
  | case2 s => rfl
  | case3 sx sy rest ih =>
      have h' : rest.length % 2 = 1 := by
        simp only [List.length_cons] at h
        omega
      rw [pairRule_cons_cons, ih h']
      rfl

/-- C2: for every status list and every adjacent pair `(2k, 2k+1)`, if either
element's status is not GOOD, PairRule replaces each element of the pair with
the minimum of that element's own current status and SUSPECT (so a GOOD
element paired with a non-GOOD one becomes SUSPECT, a SUSPECT element stays
SUSPECT, a BAD element stays BAD), while a pair with both elements GOOD is
left unchanged. -/
theorem pairRule_pair_downgrade (status r : List ℕ) (h : pairRule status = some r)
    (k : ℕ) (hk : 2 * k + 1 < status.length) :
    (status.getD (2 * k) 0 ≠ GOOD ∨ status.getD (2 * k + 1) 0 ≠ GOOD →
      r.getD (2 * k) 0 = min (status.getD (2 * k) 0) SUSPECT ∧
      r.getD (2 * k + 1) 0 = min (status.getD (2 * k + 1) 0) SUSPECT) ∧
    (status.getD (2 * k) 0 = GOOD ∧ status.getD (2 * k + 1) 0 = GOOD →
      r.getD (2 * k) 0 = GOOD ∧ r.getD (2 * k + 1) 0 = GOOD) ∧
    (status.getD (2 * k) 0 = GOOD ∧ status.getD (2 * k + 1) 0 ≠ GOOD →
      r.getD (2 * k) 0 = SUSPECT) ∧
    (status.getD (2 * k + 1) 0 = GOOD ∧ status.getD (2 * k) 0 ≠ GOOD →
      r.getD (2 * k + 1) 0 = SUSPECT) := by
  obtain ⟨h0, h1⟩ := pairRule_getD status r h k hk
  simp only [GOOD, SUSPECT]
  by_cases hc : status.getD (2 * k) 0 ≠ 3 ∨ status.getD (2 * k + 1) 0 ≠ 3
  · rw [if_pos hc] at h0 h1
    refine ⟨fun _ => ⟨h0, h1⟩, fun hg => ?_, ?_, ?_⟩
    · rcases hc with hx | hy
      · exact absurd hg.1 hx
      · exact absurd hg.2 hy
    · rintro ⟨hg, _⟩
      rw [h0, hg]
      decide
    · rintro ⟨hg, _⟩
      rw [h1, hg]
      decide
  · rw [if_neg hc] at h0 h1
    push_neg at hc
    refine ⟨fun hbad => ?_, fun _ => ⟨h0.trans hc.1, h1.trans hc.2⟩, ?_, ?_⟩
    · rcases hbad with hx | hy
      · exact absurd hc.1 hx
      · exact absurd hc.2 hy
    · rintro ⟨_, hb⟩
      exact absurd hc.2 hb
    · rintro ⟨_, hb⟩
      exact absurd hc.1 hb

/-- Witness for C2 at the concrete status list `[GOOD, BAD, SUSPECT, GOOD]`. -/
theorem pairRule_pair_downgrade_witness :
    pairRule [GOOD, BAD, SUSPECT, GOOD] = some [SUSPECT, BAD, SUSPECT, SUSPECT] ∧
    ([SUSPECT, BAD, SUSPECT, SUSPECT] : List ℕ).getD 0 0 =
      min (([GOOD, BAD, SUSPECT, GOOD] : List ℕ).getD 0 0) SUSPECT := by
  refine ⟨by decide, ?_⟩
  exact ((pairRule_pair_downgrade [GOOD, BAD, SUSPECT, GOOD]
    [SUSPECT, BAD, SUSPECT, SUSPECT] (by decide) 0 (by decide)).1 (by decide)).1

/-- C3 counterexample: on the status pair `(GOOD, BAD)` the pair rule does
NOT yield `(SUSPECT, SUSPECT)`: the BAD element keeps `min BAD SUSPECT = BAD`. -/
theorem pairRule_good_bad_counterexample :
    pairRule [GOOD, BAD] ≠ some [SUSPECT, SUSPECT] := by decide

/-- C3 (amended): on the status pair `(GOOD, BAD)` the pair rule yields
`(SUSPECT, BAD)`; the result is not `(BAD, BAD)` and neither element
remains GOOD. -/
theorem pairRule_good_bad :
    pairRule [GOOD, BAD] = some [SUSPECT, BAD] ∧
    ([SUSPECT, BAD] : List ℕ) ≠ [BAD, BAD] ∧
    SUSPECT ≠ GOOD ∧ BAD ≠ GOOD := by decide

/-- C9: on every odd-length status list the pair rule aborts (the source's
read of `status[i+1]` past the end) instead of producing a status mapping. -/
theorem pairRule_odd_fails (status : List ℕ) (h : status.length % 2 = 1) :
    pairRule status = none :=
  pairRule_odd status h

/-- Witness for C9 at the singleton status list `[GOOD]`. -/
theorem pairRule_odd_fails_witness : pairRule [GOOD] = none :=
  pairRule_odd_fails [GOOD] (by decide)

/-!
## ChannelClassifier

Source (`flag`):
```
def flag(spec, median_spec, chans=[1066,3552]):
    nchan = chans[1] - chans[0]
    spec = 10*np.log10(spec[:,chans[0]:chans[1]])
    median_spec = 10*np.log10(median_spec[chans[0]:chans[1]])
    status = [3,]*spec.shape[0]
    for i in range(spec.shape[0]):
        bad = np.where(np.abs(spec[i,:] - median_spec) > 3)[0]
        if len(bad) > 0.25*nchan:
            status[i] = 1
        spec[i,bad] = np.nan
        ...commented-out secondary SUSPECT test...
    return status
```
The `spec[i,bad] = np.nan` write only feeds the commented-out secondary test,
so it does not affect the returned statuses.  Counting bins of the sliced
window is the same as counting absolute bins in `[chans[0], chans[1])`.
-/

/-- Decibel conversion `10*np.log10`. -/
noncomputable def dB (x : ℝ) : ℝ := 10 * Real.logb 10 x

/-- `len(bad)` in `flag`: the number of window bins where the antenna's dB
spectrum deviates from the median dB spectrum by more than 3 dB. -/
noncomputable def badBins (specRow median : ℕ → ℝ) (c0 c1 : ℕ) : ℕ :=
  ((Finset.Ico c0 c1).filter (fun b => |dB (specRow b) - dB (median b)| > 3)).card

/-- The status `flag` assigns to antenna channel `i`. -/
noncomputable def flagStatus (spec : ℕ → ℕ → ℝ) (median : ℕ → ℝ) (c0 c1 : ℕ)
    (i : ℕ) : ℕ :=
  if (badBins (spec i) median c0 c1 : ℝ) > 0.25 * ((c1 - c0 : ℕ) : ℝ) then 1 else 3

/-- The status list returned by `flag` for `S` antenna channels. -/
noncomputable def flag (spec : ℕ → ℕ → ℝ) (median : ℕ → ℝ) (S : ℕ)
    (c0 c1 : ℕ) : List ℕ :=
  (List.range S).map (flagStatus spec median c0 c1)

lemma flag_getD (spec : ℕ → ℕ → ℝ) (median : ℕ → ℝ) (S : ℕ) (c0 c1 : ℕ)
    (i : ℕ) (hi : i < S) :
    (flag spec median S c0 c1).getD i 0 = flagStatus spec median c0 c1 i := by
  unfold flag
  rw [List.getD_eq_getElem?_getD, List.getElem?_map, List.getElem?_range hi]
  rfl

/-- C1: with the default window `[1066, 3552)`, channel `i` is flagged BAD
exactly when the number of window bins whose dB deviation from the median
exceeds 3 dB is more than a quarter of the window width, and GOOD otherwise;
no channel is ever flagged SUSPECT. -/
theorem flag_bad_iff (spec : ℕ → ℕ → ℝ) (median : ℕ → ℝ) (S : ℕ) (i : ℕ)
    (hi : i < S) :
    ((flag spec median S 1066 3552).getD i 0 = BAD ↔
      (badBins (spec i) median 1066 3552 : ℝ) > 0.25 * (3552 - 1066 : ℝ)) ∧
    ((flag spec median S 1066 3552).getD i 0 = GOOD ↔
      ¬ (badBins (spec i) median 1066 3552 : ℝ) > 0.25 * (3552 - 1066 : ℝ)) ∧
    (flag spec median S 1066 3552).getD i 0 ≠ SUSPECT := by
  rw [flag_getD spec median S 1066 3552 i hi]
  unfold flagStatus
  have hw : ((3552 - 1066 : ℕ) : ℝ) = (3552 - 1066 : ℝ) := by norm_num
  rw [hw]
  by_cases hc : (badBins (spec i) median 1066 3552 : ℝ) > 0.25 * (3552 - 1066 : ℝ)
  · rw [if_pos hc]
    refine ⟨⟨fun _ => hc, fun _ => rfl⟩, ⟨fun h => ?_, fun h => absurd hc h⟩, ?_⟩
    · exact absurd h (by decide)
    · decide
  · rw [if_neg hc]
    refine ⟨⟨fun h => absurd h (by decide), fun h => absurd h hc⟩,
      ⟨fun _ => hc, fun _ => rfl⟩, ?_⟩
    decide

/-- Witness for C1: a channel whose spectrum equals the median spectrum is
classified GOOD. -/
theorem flag_bad_iff_witness :
    (flag (fun _ _ => (1 : ℝ)) (fun _ => (1 : ℝ)) 2 1066 3552).getD 0 0 = GOOD :=
  (flag_bad_iff (fun _ _ => (1 : ℝ)) (fun _ => (1 : ℝ)) 2 0 (by norm_num)).2.1.mpr
    (by simp [badBins]; norm_num)

/-!
## CaptureTrendFlagger

Source (`main`), per day-id group (`valid` = encounter-order indices of the
captures sharing one `mjd`, `y` = their median powers):
```
run_fit = np.polyfit(np.arange(len(valid)), med_power[valid,1], 1)
med_power_detrened = med_power[valid,1] - np.polyval(run_fit, np.arange(len(valid)))
run_mean = np.mean(med_power_detrened)
run_std = np.std(med_power_detrened)
bad = np.where(np.abs(med_power_detrened - run_mean)/run_std > 3)[0]
```
For a group of `k ≥ 2` captures the abscissae `0..k-1` are distinct and
`np.polyfit(x, y, 1)` returns the unique least-squares line, i.e. the
normal-equation solution with slope `Σ(xᵢ-x̄)(yᵢ-ȳ) / Σ(xᵢ-x̄)²` and intercept
`ȳ - slope·x̄`.  For a one-point group (`x = [0]`) the fit ABORTS instead:
`np.polyfit` scales the Vandermonde columns by their Euclidean norms before
calling `lstsq`, the slope column `[0]` has norm 0, the scaled design matrix
contains NaN, and `np.linalg.lstsq` raises LinAlgError, killing the run at
the `np.polyfit` call (an empty group would likewise raise before fitting).
`dayGroupOutliers` below models one day-group pass with that abort as its
`none` case; `polyfitSlope`/`polyfitIntercept` give the `k ≥ 2` line (their
value at shorter lists is never used by `dayGroupOutliers`).  `np.std` is
the population standard deviation.  When `run_std` is zero every residual
equals the mean, numpy evaluates `0/0` to NaN and `NaN > 3` to False; real
division by zero yields `0 > 3`, False as well, so no capture of such a
group is flagged in either semantics.
-/

/-- Slope of `np.polyfit(np.arange(k), y, 1)` for a group of `k ≥ 2`
captures (the normal-equation least-squares solution; see the section
comment for the `k ≤ 1` abort, which `dayGroupOutliers` models). -/
noncomputable def polyfitSlope (y : List ℝ) : ℝ :=
  let k := y.length
  let xbar := (((List.range k).map (fun i => (i : ℝ))).sum) / k
  let ybar := y.sum / k
  let sxy := ((List.range k).map (fun i : ℕ => ((i : ℝ) - xbar) * (y.getD i 0 - ybar))).sum
  let sxx := ((List.range k).map (fun i : ℕ => ((i : ℝ) - xbar) ^ 2)).sum
  sxy / sxx

/-- Intercept of `np.polyfit(np.arange(k), y, 1)` for a group of `k ≥ 2`
captures. -/
noncomputable def polyfitIntercept (y : List ℝ) : ℝ :=
  y.sum / y.length -
    polyfitSlope y * ((((List.range y.length).map (fun i => (i : ℝ))).sum) / y.length)

/-- `med_power_detrened`: the group's powers minus the fitted line. -/
noncomputable def detrended (y : List ℝ) : List ℝ :=
  (List.range y.length).map
    (fun j => y.getD j 0 - (polyfitSlope y * j + polyfitIntercept y))

/-- `run_mean = np.mean(med_power_detrened)`. -/
noncomputable def runMean (y : List ℝ) : ℝ := (detrended y).sum / y.length

/-- `run_std = np.std(med_power_detrened)` (population standard deviation). -/
noncomputable def runStd (y : List ℝ) : ℝ :=
  Real.sqrt ((((detrended y).map (fun r => (r - runMean y) ^ 2)).sum) / y.length)

/-- `bad = np.where(np.abs(med_power_detrened - run_mean)/run_std > 3)[0]`:
the in-group indices (ascending) of the captures flagged as outliers. -/
noncomputable def outlierIdx (y : List ℝ) : List ℕ :=
  (List.range y.length).filter
    (fun j => |(detrended y).getD j 0 - runMean y| / runStd y > 3)

/-- If the population std of the detrended residuals is zero, the 3-sigma
test flags nothing (the source evaluates `0/0 > 3`, i.e. `NaN > 3`, False;
over `ℝ` the quotient is 0, again below the threshold). -/
lemma outlierIdx_eq_nil_of_runStd_zero (y : List ℝ) (h : runStd y = 0) :
    outlierIdx y = [] := by
  apply List.filter_eq_nil_iff.mpr
  intro j _
  simp [h]

/-- One day-group's outlier pass as the source runs it: with fewer than two
captures `np.polyfit` raises (zero-norm slope column, NaN-scaled design
matrix, LinAlgError) and the whole run aborts — the `none` case; with `k ≥ 2`
the least-squares fit succeeds and the 3-sigma test yields the outlier
indices. -/
noncomputable def dayGroupOutliers (y : List ℝ) : Option (List ℕ) :=
  if 2 ≤ y.length then some (outlierIdx y) else none

/-- A two-capture group with equal powers has a perfect fit and zero
residual std. -/
lemma runStd_pair_constant : runStd [(7 : ℝ), 7] = 0 := by
  simp [runStd, runMean, detrended, polyfitSlope, polyfitIntercept, List.range_succ]

/-- C5 counterexample: on a day-group of size 1 the trend flagger does not
report zero outliers — `np.polyfit` aborts the run (LinAlgError), so no
outlier report for the group exists at all. -/
theorem trend_singleton_counterexample :
    dayGroupOutliers [(5 : ℝ)] = none ∧ dayGroupOutliers [(5 : ℝ)] ≠ some [] := by
  have h : dayGroupOutliers [(5 : ℝ)] = none := by
    unfold dayGroupOutliers
    rw [if_neg (by norm_num)]
  exact ⟨h, by rw [h]; exact fun hc => Option.noConfusion hc⟩

/-- C5 (amended): a day-group of size 1 aborts the run inside `np.polyfit`
(LinAlgError from the NaN-scaled design matrix) instead of being reported
on; a day-group of size at least 2 whose detrended residuals have zero
population standard deviation reports zero outliers, whatever the power
values — there the `0/0` of the outlier test is NaN (0 over `ℝ`), which
compares below the 3-sigma threshold rather than raising. -/
theorem trend_day_group_degenerate (y : List ℝ) :
    (y.length = 1 → dayGroupOutliers y = none) ∧
    (2 ≤ y.length → runStd y = 0 → dayGroupOutliers y = some []) := by
  constructor
  · intro h
    unfold dayGroupOutliers
    rw [if_neg (by omega)]
  · intro hk h
    unfold dayGroupOutliers
    rw [if_pos hk, outlierIdx_eq_nil_of_runStd_zero y h]

/-- Witness for C5: the one-capture group `[5]` aborts, the constant
two-capture group `[7, 7]` reports zero outliers. -/
theorem trend_day_group_degenerate_witness :
    dayGroupOutliers [(5 : ℝ)] = none ∧ dayGroupOutliers [(7 : ℝ), 7] = some [] :=
  ⟨(trend_day_group_degenerate [(5 : ℝ)]).1 rfl,
    (trend_day_group_degenerate [(7 : ℝ), 7]).2 (by norm_num) runStd_pair_constant⟩

lemma polyfitSlope_y5 : polyfitSlope [10, 10, 10, 10, 100] = 18 := by
  simp only [polyfitSlope]
  norm_num [List.range_succ]

lemma polyfitIntercept_y5 : polyfitIntercept [10, 10, 10, 10, 100] = -8 := by
  simp only [polyfitIntercept, polyfitSlope_y5]
  norm_num [List.range_succ]

lemma detrended_y5 : detrended [10, 10, 10, 10, 100] = [18, 0, -18, -36, 36] := by
  simp only [detrended, polyfitSlope_y5, polyfitIntercept_y5]
  norm_num [List.range_succ]

lemma runMean_y5 : runMean [10, 10, 10, 10, 100] = 0 := by
  simp only [runMean, detrended_y5]
  norm_num

lemma runStd_y5 : runStd [10, 10, 10, 10, 100] = Real.sqrt 648 := by
  simp only [runStd, detrended_y5, runMean_y5]
  norm_num

/-- On the group `[10, 10, 10, 10, 100]` the fitted line `18·j - 8` absorbs
the deviation: the largest standardized residual is `36/√648 = √2 < 3`, so
the 3-sigma test flags nothing at all. -/
lemma outlierIdx_y5 : outlierIdx [10, 10, 10, 10, 100] = [] := by
  have hs : (0 : ℝ) < Real.sqrt 648 := Real.sqrt_pos.mpr (by norm_num)
  have hsq : Real.sqrt 648 ^ 2 = 648 := Real.sq_sqrt (by norm_num)
  apply List.filter_eq_nil_iff.mpr
  intro j hj
  have hj5 : j < 5 := by simpa using hj
  simp only [outlierIdx, detrended_y5, runMean_y5, runStd_y5, decide_eq_true_eq, not_lt]
  rw [div_le_iff₀ hs]
  interval_cases j <;> norm_num <;> nlinarith [hsq, hs.le]

/-- C4 counterexample: on the day-group `y = [10, 10, 10, 10, 100]` the
trend flagger does not flag exactly index 4 — it flags nothing. -/
theorem trend_y5_counterexample :
    outlierIdx [10, 10, 10, 10, 100] ≠ [4] := by
  rw [outlierIdx_y5]
  simp

/-- C4 (amended): on the day-group `y = [10, 10, 10, 10, 100]` the trend
flagger flags no capture: the degree-1 least-squares fit tilts towards the
last point and every standardized residual stays at or below `√2`. -/
theorem trend_y5_no_outliers : outlierIdx [10, 10, 10, 10, 100] = [] :=
  outlierIdx_y5

/-!
## SpectrumAverager

Source (`main`), inside the load loop:
```
try:
    mean_spec += spec
except NameError:
    mean_spec = spec*1.0
```
and after the loop `spec = mean_spec / len(args)`.  The first capture seeds
the accumulator; every later capture is added in place.  numpy's in-place
`+=` succeeds exactly when the addend's shape broadcasts to the
accumulator's shape: each dimension must equal the accumulator's or be 1 (a
size-1 dimension is repeated).  A non-broadcastable shape raises ValueError
(the spec's ConsistencyError) and the batch aborts inside the loop, before
either output file is touched.
-/

/-- One capture's power matrix: `masterSpectra[0,...]`, an
`S` (antenna-channel) × `F` (frequency-bin) array. -/
structure Capture where
  S : ℕ
  F : ℕ
  power : ℕ → ℕ → ℝ

/-- numpy's in-place broadcast add `acc += c` on 2-D arrays: defined when
each dimension of `c` equals the accumulator's or is 1. -/
def bcastCompat (acc c : Capture) : Prop :=
  (c.S = acc.S ∨ c.S = 1) ∧ (c.F = acc.F ∨ c.F = 1)

instance (acc c : Capture) : Decidable (bcastCompat acc c) :=
  inferInstanceAs (Decidable ((c.S = acc.S ∨ c.S = 1) ∧ (c.F = acc.F ∨ c.F = 1)))

/-- The value added at `(i, j)` by the broadcast: size-1 dimensions of `c`
are read at index 0. -/
def bcastRead (c : Capture) (i j : ℕ) : ℝ :=
  c.power (if c.S = 1 then 0 else i) (if c.F = 1 then 0 else j)

/-- The accumulation loop from an already-seeded accumulator. -/
def accumFrom (acc : Capture) : List Capture → Option Capture
  | [] => some acc
  | c :: rest =>
    if bcastCompat acc c then
      accumFrom { acc with power := fun i j => acc.power i j + bcastRead c i j } rest
    else
      none

/-- The whole running sum: the first capture seeds `mean_spec = spec*1.0`,
the rest are added in place; `none` models the ValueError abort. -/
def accumSum : List Capture → Option Capture
  | [] => none
  | c :: rest => accumFrom { c with power := fun i j => c.power i j * 1 } rest

lemma accumSum_cons (c : Capture) (rest : List Capture) :
    accumSum (c :: rest) =
      accumFrom { c with power := fun i j => c.power i j * 1 } rest := rfl

/-- `spec = mean_spec / len(args)`: the averaged spectrum. -/
noncomputable def averagedSpectrum (caps : List Capture) : Option Capture :=
  (accumSum caps).map
    (fun tot => { tot with power := fun i j => tot.power i j / (caps.length : ℝ) })

lemma accumFrom_shape (acc : Capture) (caps : List Capture) (res : Capture)
    (h : accumFrom acc caps = some res) : res.S = acc.S ∧ res.F = acc.F := by
  induction caps generalizing acc with
  | nil =>
      obtain rfl : acc = res := Option.some.inj h
      exact ⟨rfl, rfl⟩
  | cons c rest ih =>
      rw [accumFrom] at h
      by_cases hc : bcastCompat acc c
      · rw [if_pos hc] at h
        have h2 := ih _ h
        exact h2
      · rw [if_neg hc] at h
        exact Option.noConfusion h

/-- `accumFrom` fails exactly when some remaining capture is not
broadcast-compatible with the accumulator's (fixed) shape. -/
lemma accumFrom_eq_none_iff (acc : Capture) (caps : List Capture) :
    accumFrom acc caps = none ↔ ∃ c ∈ caps, ¬ bcastCompat acc c := by
  induction caps generalizing acc with
  | nil => simp [accumFrom]
  | cons c rest ih =>
      rw [accumFrom]
      by_cases hc : bcastCompat acc c
      · rw [if_pos hc, ih]
        constructor
        · rintro ⟨d, hd, hnc⟩
          exact ⟨d, List.mem_cons_of_mem c hd, hnc⟩
        · rintro ⟨d, hd, hnc⟩
          rcases List.mem_cons.mp hd with rfl | hd'
          · exact absurd hc hnc
          · exact ⟨d, hd', hnc⟩
      · rw [if_neg hc]
        simp only [eq_self_iff_true, true_iff]
        exact ⟨c, List.mem_cons_self c rest, hc⟩

/-- Inside the matrix (`i < S`, `j < F`) the broadcast read is the plain
entry: a size-1 dimension only has index 0. -/
lemma bcastRead_eq (cap : Capture) (i j : ℕ) (hi : i < cap.S) (hj : j < cap.F) :
    bcastRead cap i j = cap.power i j := by
  unfold bcastRead
  have hS : (if cap.S = 1 then 0 else i) = i := by
    by_cases h : cap.S = 1
    · rw [if_pos h]; omega
    · rw [if_neg h]
  have hF : (if cap.F = 1 then 0 else j) = j := by
    by_cases h : cap.F = 1
    · rw [if_pos h]; omega
    · rw [if_neg h]
  rw [hS, hF]

/-- Closed form of the accumulation loop over `n` copies of one capture. -/
lemma accumFrom_replicate (cap : Capture) :
    ∀ (n : ℕ) (acc : Capture), acc.S = cap.S → acc.F = cap.F →
    accumFrom acc (List.replicate n cap) =
      some ⟨acc.S, acc.F, fun i j => acc.power i j + n * bcastRead cap i j⟩ := by
  intro n
  induction n with
  | zero =>
      intro acc _ _
      simp only [List.replicate_zero, accumFrom, Nat.cast_zero, zero_mul, add_zero]
  | succ n ih =>
      intro acc hS hF
      rw [List.replicate_succ, accumFrom,
        if_pos (show bcastCompat acc cap from ⟨Or.inl hS.symm, Or.inl hF.symm⟩)]
      rw [ih { acc with power := fun i j => acc.power i j + bcastRead cap i j } hS hF]
      congr 1
      congr 1
      funext i j
      push_cast
      ring

/-- C6: averaging a batch of `N ≥ 1` identical captures reproduces the single
capture's `S × F` matrix. -/
theorem averaged_replicate_eq (cap : Capture) (N : ℕ) (hN : 1 ≤ N) :
    ∃ avg, averagedSpectrum (List.replicate N cap) = some avg ∧
      avg.S = cap.S ∧ avg.F = cap.F ∧
      ∀ i, i < cap.S → ∀ j, j < cap.F → avg.power i j = cap.power i j := by
  obtain ⟨n, rfl⟩ : ∃ n, N = n + 1 := ⟨N - 1, (Nat.succ_pred_eq_of_pos hN).symm⟩
  unfold averagedSpectrum
  rw [show List.replicate (n + 1) cap = cap :: List.replicate n cap from
    List.replicate_succ cap n]
  rw [accumSum_cons]
  rw [accumFrom_replicate cap n { cap with power := fun i j => cap.power i j * 1 } rfl rfl]
  simp only [Option.map_some']
  refine ⟨_, rfl, rfl, rfl, ?_⟩
  intro i hi j hj
  simp only
  rw [bcastRead_eq cap i j hi hj, List.length_cons, List.length_replicate]
  have hne : ((n : ℝ) + 1) ≠ 0 := by positivity
  push_cast
  field_simp
  ring

/-- Witness for C6: three identical `1 × 1` captures of power 2 average
back to power 2. -/
theorem averaged_replicate_eq_witness :
    ∃ avg, averagedSpectrum (List.replicate 3 (Capture.mk 1 1 (fun _ _ => (2 : ℝ)))) = some avg ∧
      avg.S = (Capture.mk 1 1 (fun _ _ => (2 : ℝ))).S ∧
      avg.F = (Capture.mk 1 1 (fun _ _ => (2 : ℝ))).F ∧
      ∀ i, i < (Capture.mk 1 1 (fun _ _ => (2 : ℝ))).S →
        ∀ j, j < (Capture.mk 1 1 (fun _ _ => (2 : ℝ))).F →
          avg.power i j = (Capture.mk 1 1 (fun _ _ => (2 : ℝ))).power i j :=
  averaged_replicate_eq (Capture.mk 1 1 (fun _ _ => (2 : ℝ))) 3 (by norm_num)

/-- C7 counterexample: a batch whose second capture has a different shape
(`1 × 4` vs `2 × 4`) does NOT make the averager fail — numpy broadcasts the
size-1 antenna axis and the accumulation succeeds. -/
theorem averager_mismatch_counterexample :
    (Capture.mk 1 4 (fun _ _ => (1 : ℝ))).S ≠ (Capture.mk 2 4 (fun _ _ => (1 : ℝ))).S ∧
    accumSum [Capture.mk 2 4 (fun _ _ => (1 : ℝ)),
      Capture.mk 1 4 (fun _ _ => (1 : ℝ))] ≠ none := by
  refine ⟨by norm_num, ?_⟩
  norm_num [accumSum_cons, accumFrom, bcastCompat]
  exact fun h => Option.noConfusion h

/-- C7 (amended): the accumulation fails exactly when some later capture's
shape is not in-place-broadcast-compatible with the first capture's shape
(each dimension equal to the first's or to 1); on failure no averaged
spectrum is produced (the abort happens inside the load loop, before either
output file is written). -/
theorem averager_mismatch_fails (c0 : Capture) (rest : List Capture) :
    (accumSum (c0 :: rest) = none ↔ ∃ c ∈ rest, ¬ bcastCompat c0 c) ∧
    (accumSum (c0 :: rest) = none → averagedSpectrum (c0 :: rest) = none) := by
  constructor
  · rw [show accumSum (c0 :: rest) =
      accumFrom ⟨c0.S, c0.F, fun i j => c0.power i j * 1⟩ rest from rfl]
    exact accumFrom_eq_none_iff _ rest
  · intro h
    unfold averagedSpectrum
    rw [h]
    rfl

/-- Witness for C7: a `3 × 4` capture after a `2 × 4` capture (antenna axis
neither equal nor 1) aborts the accumulation. -/
theorem averager_mismatch_fails_witness :
    accumSum [Capture.mk 2 4 (fun _ _ => (1 : ℝ)),
      Capture.mk 3 4 (fun _ _ => (1 : ℝ))] = none := by
  apply (averager_mismatch_fails (Capture.mk 2 4 (fun _ _ => (1 : ℝ)))
    [Capture.mk 3 4 (fun _ _ => (1 : ℝ))]).1.mpr
  refine ⟨Capture.mk 3 4 (fun _ _ => (1 : ℝ)), List.mem_singleton.mpr rfl, ?_⟩
  intro hc
  have h1 := hc.1
  norm_num at h1

/-!
## ReportEmitter: `antenna_flags.txt`

Source (`main`):
```
with open('antenna_flags.txt', 'w') as fh:
    for i,l in enumerate(status):
        if l != 3:
            fh.write(f"{i},")
```
-/

/-- The full text written to `antenna_flags.txt`: one `f"{i},"` chunk per
non-GOOD status, in enumeration order. -/
def antennaFlagsFile (status : List ℕ) : String :=
  String.join (status.enum.filterMap
    (fun p => if p.2 ≠ 3 then some (toString p.1 ++ ",") else none))

/-- The spec's reading of the output: the 0-based indices whose final status
is not GOOD, listed in ascending order. -/
def flaggedIndices (status : List ℕ) : List ℕ :=
  (List.range status.length).filter (fun i => status.getD i 0 ≠ 3)

lemma enumFrom_flag_chunks (l : List ℕ) :
    ∀ n : ℕ, (List.enumFrom n l).filterMap
        (fun p => if p.2 ≠ 3 then some (toString p.1 ++ ",") else none) =
      ((List.range l.length).filter (fun i => l.getD i 0 ≠ 3)).map
        (fun i => toString (n + i) ++ ",") := by
  induction l with
  | nil => intro n; rfl
  | cons a t ih =>
      intro n
      have harith : ∀ i : ℕ, n + 1 + i = n + (i + 1) := by omega
      simp only [List.enumFrom_cons, List.filterMap_cons, List.length_cons,
        List.range_succ_eq_map, List.filter_cons, List.getD_cons_zero,
        List.filter_map, List.map_map, ih, Nat.succ_eq_add_one,
        Function.comp_def, List.getD_cons_succ, harith]
      by_cases ha : a ≠ 3
      · rw [if_pos (show (decide (a ≠ 3)) = true by simpa using ha)]
        rw [if_pos ha]
        simp only [List.map_cons, List.map_map, Function.comp_def,
          Nat.succ_eq_add_one, add_zero]
      · rw [if_neg (show ¬ (decide (a ≠ 3)) = true by simpa using ha)]
        rw [if_neg ha]
        simp only [List.map_map, Function.comp_def, Nat.succ_eq_add_one]

/-- C8: the text of `antenna_flags.txt` is exactly the comma-terminated
0-based indices whose final status is not GOOD, in ascending index order and
nothing else. -/
theorem antennaFlags_exact (status : List ℕ) :
    antennaFlagsFile status =
      String.join ((flaggedIndices status).map (fun i => toString i ++ ",")) ∧
    List.Sorted (· < ·) (flaggedIndices status) ∧
    ∀ i, i ∈ flaggedIndices status ↔ i < status.length ∧ status.getD i 0 ≠ GOOD := by
  refine ⟨?_, ?_, ?_⟩
  · unfold antennaFlagsFile flaggedIndices
    apply congrArg String.join
    rw [show status.enum = List.enumFrom 0 status from rfl, enumFrom_flag_chunks]
    apply List.map_congr_left
    intro i _
    rw [zero_add]
  · unfold flaggedIndices
    exact (List.pairwise_lt_range _).filter _
  · intro i
    unfold flaggedIndices
    simp [List.mem_filter, List.mem_range, GOOD]

/-!
## ReportEmitter: `bad_captures.txt` ordering

Source (`main`):
```
for mjd in np.unique(med_power[:,0]):
    valid = np.where(med_power[:,0] == mjd)[0]
    run_fit = np.polyfit(np.arange(len(valid)), med_power[valid,1], 1)
    ...
    bad = np.where(np.abs(med_power_detrened - run_mean)/run_std > 3)[0]
    with open('bad_captures.txt', 'a') as fh:
        for b in bad:
            fh.write(args[valid[b]]+'\n')
```
`np.unique` returns the distinct day-ids in ascending order and `np.where`
returns indices in ascending order.  `med_power` is the encounter-order list
of `(day-id, median power)` pairs; the per-capture median powers themselves
are taken as inputs here (no claim concerns `np.median(spec)` itself).
-/

/-- `np.unique(med_power[:,0])`: the distinct day-ids, sorted ascending. -/
def uniqueDays (entries : List (ℤ × ℝ)) : List ℤ :=
  (entries.map Prod.fst).toFinset.sort (· ≤ ·)

/-- `valid = np.where(med_power[:,0] == mjd)[0]`: the encounter-order
positions of the captures of day `d`. -/
def dayIdx (entries : List (ℤ × ℝ)) (d : ℤ) : List ℕ :=
  (List.range entries.length).filter (fun i => (entries.getD i (0, 0)).1 = d)

/-- One day's appended `(day-id, original capture index)` pairs, in the
order the inner `for b in bad` loop writes them. -/
noncomputable def dayGroupPairs (entries : List (ℤ × ℝ)) (d : ℤ) : List (ℤ × ℕ) :=
  (outlierIdx ((dayIdx entries d).map (fun i => (entries.getD i (0, 0)).2))).map
    (fun b => (d, (dayIdx entries d).getD b 0))

/-- The `(day-id, original capture index)` of every line of
`bad_captures.txt`, in file order. -/
noncomputable def badCapturePairs (entries : List (ℤ × ℝ)) : List (ℤ × ℕ) :=
  (uniqueDays entries).flatMap (dayGroupPairs entries)

/-- The lines themselves: `args[valid[b]]`. -/
noncomputable def badCaptureLines (names : List String) (entries : List (ℤ × ℝ)) :
    List String :=
  (badCapturePairs entries).map (fun p => names.getD p.2 "")

lemma dayIdx_pairwise (entries : List (ℤ × ℝ)) (d : ℤ) :
    List.Pairwise (· < ·) (dayIdx entries d) :=
  (List.pairwise_lt_range _).filter _

lemma mem_dayIdx (entries : List (ℤ × ℝ)) (d : ℤ) (i : ℕ)
    (h : i ∈ dayIdx entries d) :
    i < entries.length ∧ (entries.getD i (0, 0)).1 = d := by
  unfold dayIdx at h
  obtain ⟨h1, h2⟩ := List.mem_filter.mp h
  exact ⟨List.mem_range.mp h1, by simpa using h2⟩

lemma outlierIdx_pairwise (y : List ℝ) : List.Pairwise (· < ·) (outlierIdx y) :=
  (List.pairwise_lt_range _).filter _

lemma mem_outlierIdx_lt (y : List ℝ) (b : ℕ) (h : b ∈ outlierIdx y) :
    b < y.length :=
  List.mem_range.mp (List.mem_filter.mp h).1

lemma getD_strict_mono {l : List ℕ} (hl : List.Pairwise (· < ·) l) {b b' : ℕ}
    (hbb : b < b') (hb' : b' < l.length) : l.getD b 0 < l.getD b' 0 := by
  have hb : b < l.length := lt_trans hbb hb'
  rw [List.getD_eq_getElem l 0 hb, List.getD_eq_getElem l 0 hb']
  exact List.pairwise_iff_get.mp hl ⟨b, hb⟩ ⟨b', hb'⟩ hbb

lemma getD_mem_of_lt {l : List ℕ} {b : ℕ} (hb : b < l.length) :
    l.getD b 0 ∈ l := by
  rw [List.getD_eq_getElem l 0 hb]
  exact List.getElem_mem hb

lemma mem_dayGroupPairs (entries : List (ℤ × ℝ)) (d : ℤ) (p : ℤ × ℕ)
    (hp : p ∈ dayGroupPairs entries d) :
    p.1 = d ∧ p.2 ∈ dayIdx entries d := by
  unfold dayGroupPairs at hp
  obtain ⟨b, hb, rfl⟩ := List.mem_map.mp hp
  refine ⟨rfl, ?_⟩
  have hlen : b < (dayIdx entries d).length := by
    have := mem_outlierIdx_lt _ b hb
    simpa using this
  exact getD_mem_of_lt hlen

lemma dayGroupPairs_pairwise (entries : List (ℤ × ℝ)) (d : ℤ) :
    List.Pairwise (fun p q : ℤ × ℕ => p.1 < q.1 ∨ (p.1 = q.1 ∧ p.2 < q.2))
      (dayGroupPairs entries d) := by
  unfold dayGroupPairs
  rw [List.pairwise_map]
  refine (outlierIdx_pairwise _).imp_of_mem ?_
  intro b b' hb hb' hlt
  refine Or.inr ⟨rfl, ?_⟩
  have hb'len : b' < (dayIdx entries d).length := by
    have := mem_outlierIdx_lt _ b' hb'
    simpa using this
  exact getD_strict_mono (dayIdx_pairwise entries d) hlt hb'len

lemma uniqueDays_sorted (entries : List (ℤ × ℝ)) :
    List.Sorted (· < ·) (uniqueDays entries) :=
  Finset.sort_sorted_lt _

lemma flatMap_pairwise_lex (entries : List (ℤ × ℝ)) :
    ∀ days : List ℤ, List.Pairwise (· < ·) days →
    List.Pairwise (fun p q : ℤ × ℕ => p.1 < q.1 ∨ (p.1 = q.1 ∧ p.2 < q.2))
      (days.flatMap (dayGroupPairs entries)) := by
  intro days
  induction days with
  | nil => intro _; simp
  | cons d ds ih =>
      intro hp
      rw [List.flatMap_cons]
      rw [List.pairwise_append]
      refine ⟨dayGroupPairs_pairwise entries d, ih hp.of_cons, ?_⟩
      intro a ha b hb
      obtain ⟨d', hd', hb'⟩ := List.mem_flatMap.mp hb
      have ha1 := (mem_dayGroupPairs entries d a ha).1
      have hb1 := (mem_dayGroupPairs entries d' b hb').1
      left
      rw [ha1, hb1]
      exact (List.pairwise_cons.mp hp).1 d' hd'

/-- C10: the lines of `bad_captures.txt` come grouped by strictly ascending
day-id (days are iterated in `np.unique`'s sorted order), with input
encounter order preserved inside each day-group: the written
`(day-id, capture index)` sequence is lexicographically strictly sorted,
each written index is a valid input position whose entry carries the
written day-id, and the lines are exactly the captures' names at those
indices. -/
theorem badCaptures_grouped_sorted (entries : List (ℤ × ℝ)) :
    List.Pairwise (fun p q : ℤ × ℕ => p.1 < q.1 ∨ (p.1 = q.1 ∧ p.2 < q.2))
      (badCapturePairs entries) ∧
    (∀ p ∈ badCapturePairs entries,
      p.2 < entries.length ∧ (entries.getD p.2 (0, 0)).1 = p.1) ∧
    ∀ names, badCaptureLines names entries =
      (badCapturePairs entries).map (fun p => names.getD p.2 "") := by
  refine ⟨?_, ?_, fun _ => rfl⟩
  · exact flatMap_pairwise_lex entries (uniqueDays entries) (uniqueDays_sorted entries)
  · intro p hp
    obtain ⟨d, _, hp'⟩ := List.mem_flatMap.mp hp
    obtain ⟨h1, h2⟩ := mem_dayGroupPairs entries d p hp'
    have := mem_dayIdx entries d p.2 h2
    exact ⟨this.1, by rw [this.2, h1]⟩
